import Mathlib

set_option maxRecDepth 100000

/-!
Verification development for the Narrator_Sound voice-cloning pipeline.

Shallow embedding of the repository's core modules:
  * `src/src/text_processor.py`  — `TextProcessor.normalize_text`,
    `TextProcessor.split_sentences`, `TextProcessor.preprocess_for_tts`;
  * `src/src/audio_processor.py` — `AudioProcessor.select_best_voice_samples`;
  * `src/src/voice_cloner.py`    — `VoiceCloner._select_voice_samples`,
    `VoiceCloner.get_voice_samples`, `VoiceCloner.clone_voice`,
    `VoiceCloner.initialize` (its keyword-argument call protocol);
  * `src/src/tts_engine.py`      — `TTSEngine.synthesize`'s empty-text guard and
    per-chunk file contract, with the neural model treated as an external
    collaborator supplied as a function parameter.

Text is modelled as `String` / `List Char`, waveforms as `List ℚ` (exact
arithmetic in place of IEEE floats; the claims under study are either
float-independent or explicitly stated in exact real arithmetic), the
filesystem as the list of existing paths. Python regular expressions used by
the source (`\s+` collapse, the word-bounded case-insensitive abbreviation
substitution, the sentence split on `[.!?]+\s+`) are implemented directly on
character lists; character classes (`\w`, `\s`, case folding) are modelled on
the character ranges the program manipulates: ASCII plus the Latin ranges
covering Vietnamese (U+00C0..U+1EFF).
-/

/-! ### Character classes (model of Python's `\s`, `\w`, case folding) -/

/-- Python `\s` on the ASCII range: space, tab, newline, carriage return,
vertical tab, form feed. -/
def isPySpace (c : Char) : Bool :=
  c == ' ' || c == '\t' || c == '\n' || c == '\r' || c == '\x0b' || c == '\x0c'

/-- Python `\w` (word character) restricted to the scripts this program
handles: ASCII alphanumerics, underscore, and the Latin letter ranges
U+00C0..U+024F (minus the multiplication and division signs) and
U+1E00..U+1EFF that cover Vietnamese. -/
def isWordChar (c : Char) : Bool :=
  c.isAlpha || c.isDigit || c == '_' ||
  (0xC0 ≤ c.val && c.val ≤ 0x24F && c.val != 0xD7 && c.val != 0xF7) ||
  (0x1E00 ≤ c.val && c.val ≤ 0x1EFF)

/-- Lower-casing for the character ranges this program handles (model of
Python case-insensitive matching): ASCII A-Z, Latin-1 U+00C0..U+00DE (minus
U+00D7), and the even/odd upper/lower pairs of U+0100..U+017F and
U+1E00..U+1EFF. -/
def toLowerCh (c : Char) : Char :=
  if 'A' ≤ c && c ≤ 'Z' then Char.ofNat (c.toNat + 32)
  else if 0xC0 ≤ c.val && c.val ≤ 0xDE && c.val != 0xD7 then Char.ofNat (c.toNat + 32)
  else if ((0x100 ≤ c.val && c.val ≤ 0x17F) || (0x1E00 ≤ c.val && c.val ≤ 0x1EFF))
          && c.toNat % 2 == 0 then Char.ofNat (c.toNat + 1)
  else c

/-! ### `TextProcessor.normalize_text` (text_processor.py lines 34-104) -/

/-- Python `str.strip()` on a character list (ASCII whitespace model). -/
def stripChars (l : List Char) : List Char :=
  ((l.dropWhile isPySpace).reverse.dropWhile isPySpace).reverse

/-- Model of `re.sub(r"\s+", " ", text)`: every maximal whitespace run becomes
one space. The boolean records whether the previous character was whitespace
(start with `false`). -/
def collapseRun : Bool → List Char → List Char
  | _, [] => []
  | prevWS, c :: rest =>
    if isPySpace c then
      if prevWS then collapseRun true rest else ' ' :: collapseRun true rest
    else c :: collapseRun false rest

/-- The abbreviation table of `TextProcessor.__init__`, in insertion order. -/
def abbreviationTable : List (String × String) :=
  [("Ông", "ông"), ("Bà", "bà"), ("Anh", "anh"), ("Chị", "chị"), ("Em", "em"),
   ("Dr.", "tiến sĩ"), ("Mr.", "ông"), ("Mrs.", "bà"), ("Ms.", "cô")]

/-- Word boundary test of `\b` between two optional adjacent characters
(out of range counts as a non-word position). -/
def wordBoundary (a b : Option Char) : Bool :=
  (a.elim false isWordChar) != (b.elim false isWordChar)

/-- Case-insensitive match of a pattern against the front of the text. -/
def matchCI : List Char → List Char → Bool
  | [], _ => true
  | _ :: _, [] => false
  | p :: ps, c :: cs => (toLowerCh p == toLowerCh c) && matchCI ps cs

/-- One pass of `re.sub(r"\b" + re.escape(abbrev) + r"\b", expansion, text,
flags=re.IGNORECASE)`: scan left to right; at a word boundary where the
pattern matches case-insensitively and is followed by a word boundary,
emit the replacement and continue after the matched region (the replacement
is not rescanned). The `Option Char` argument is the original-text character
just before the current position; the fuel is at least the text length, and
each step consumes at least one character. -/
def subBF (pat repl : List Char) : Nat → Option Char → List Char → List Char
  | 0, _, t => t
  | _ + 1, _, [] => []
  | fuel + 1, prev, c :: rest =>
    let t := c :: rest
    if !pat.isEmpty && wordBoundary prev (some c) && matchCI pat t &&
        wordBoundary ((t.take pat.length).getLast?) ((t.drop pat.length).head?) then
      repl ++ subBF pat repl fuel ((t.take pat.length).getLast?) (t.drop pat.length)
    else
      c :: subBF pat repl fuel (some c) rest

/-- `_expand_abbreviations`: apply the word-bounded case-insensitive
substitution for each table entry in order. -/
def expandAbbrevs (l : List Char) : List Char :=
  abbreviationTable.foldl (fun t pr => subBF pr.1.data pr.2.data (t.length + 1) none t) l

/-- `_clean_special_chars` keep-set: word characters, whitespace, the
Vietnamese Unicode range U+00C0..U+1EF9 (which subsumes the explicitly listed
Vietnamese letters of the source pattern), and the allowed punctuation. -/
def keepChar (c : Char) : Bool :=
  isWordChar c || isPySpace c || (0xC0 ≤ c.val && c.val ≤ 0x1EF9) ||
  c ∈ ['.', ',', '!', '?', ';', ':', '(', ')', '-', '\'', '"']

/-- `TextProcessor.normalize_text` on a character list: empty input short
circuit, strip, whitespace collapse, diacritics pass (identity in the
source), abbreviation expansion, special-character removal, final strip. -/
def normalizeChars (l : List Char) : List Char :=
  if l = [] then []
  else stripChars (List.filter keepChar (expandAbbrevs (collapseRun false (stripChars l))))

/-- `TextProcessor.normalize_text`. -/
def normalize_text (s : String) : String := ⟨normalizeChars s.data⟩

/-! ### `TextProcessor.split_sentences` (text_processor.py lines 130-146) -/

/-- Sentence-terminal punctuation class `[.!?]`. -/
def isTerm (c : Char) : Bool := c == '.' || c == '!' || c == '?'

/-- Model of `re.split(r"[.!?]+\s+", text)`: a match is a maximal run of
terminal punctuation followed immediately by whitespace (and consumes the
maximal whitespace run); matched separators split the text. The accumulator
holds the current segment reversed; each step consumes at least one
character, so fuel `length + 1` suffices. -/
def splitTermF : Nat → List Char → List Char → List (List Char)
  | 0, acc, rest => [acc.reverse ++ rest]
  | _ + 1, acc, [] => [acc.reverse]
  | fuel + 1, acc, c :: rest =>
    if isTerm c then
      let run := List.takeWhile isTerm (c :: rest)
      let after := List.dropWhile isTerm (c :: rest)
      match after with
      | [] => splitTermF fuel (run.reverse ++ acc) []
      | a :: as =>
        if isPySpace a then
          acc.reverse :: splitTermF fuel [] (List.dropWhile isPySpace as)
        else
          splitTermF fuel (run.reverse ++ acc) (a :: as)
    else
      splitTermF fuel (c :: acc) rest

/-- `TextProcessor.split_sentences` on a character list: empty-input short
circuit, regex split, then strip each part and keep the non-empty ones. -/
def splitSentencesChars (l : List Char) : List (List Char) :=
  if l = [] then []
  else ((splitTermF (l.length + 1) [] l).map stripChars).filter (fun s => !s.isEmpty)

/-- `TextProcessor.split_sentences`. -/
def split_sentences (s : String) : List String :=
  (splitSentencesChars s.data).map String.mk

/-! ### `TextProcessor.preprocess_for_tts` (text_processor.py lines 148-191) -/

/-- The `". "` joiner used when packing sentences into chunks. -/
def sepChars : List Char := ['.', ' ']

/-- The greedy sentence-packing loop of `preprocess_for_tts` (lines 174-189):
a sentence is added to the current chunk when
`len(current_chunk) + len(sentence) + 1 <= max_length` (note the source
reserves 1 character for the joiner although `". "` has 2), joining with
`". "`; otherwise the current chunk, if non-empty, is emitted. -/
def packLoop (maxL : Nat) : List (List Char) → List Char → List (List Char) → List (List Char)
  | [], cur, chunks => if cur = [] then chunks else chunks ++ [cur]
  | s :: rest, cur, chunks =>
    if cur.length + s.length + 1 ≤ maxL then
      packLoop maxL rest (if cur = [] then s else cur ++ sepChars ++ s) chunks
    else
      packLoop maxL rest s (if cur = [] then chunks else chunks ++ [cur])

/-- Sentence packing with empty initial accumulator and chunk list. -/
def packChunks (maxL : Nat) (ss : List (List Char)) : List (List Char) :=
  packLoop maxL ss [] []

/-- Fixed-width fallback slicing
`[normalized[i : i + max_length] for i in range(0, len(normalized), max_length)]`
(lines 167-170), with fuel at least the text length. A zero width never occurs
on the paths the orchestrator exercises (Python would raise on `range` step 0;
the fuel-out and zero-width cases are unreachable for `1 ≤ maxL`). -/
def sliceChunksF : Nat → Nat → List Char → List (List Char)
  | _, _, [] => []
  | 0, _, _ :: _ => []
  | fuel + 1, m, l => l.take m :: sliceChunksF fuel m (l.drop m)

/-- Fixed-width fallback slicing of a character list. -/
def sliceChunks (m : Nat) (l : List Char) : List (List Char) :=
  sliceChunksF l.length m l

/-- `TextProcessor.preprocess_for_tts`: normalize; if the normalized text fits
in `max_length` return it as the single chunk; otherwise split into sentences
and greedily pack them, or fall back to fixed-width slicing when sentence
splitting found no boundary. -/
def preprocess_for_tts (text : String) (max_length : Nat) : List String :=
  let normalized := normalize_text text
  if normalized.length ≤ max_length then [normalized]
  else
    let sentences := split_sentences normalized
    if sentences = [] then (sliceChunks max_length normalized.data).map String.mk
    else (packChunks max_length (sentences.map String.data)).map String.mk

/-! ### Joining chunks back together -/

/-- Join a list of character lists with a separator list. -/
def joinSep (sep : List Char) : List (List Char) → List Char
  | [] => []
  | [a] => a
  | a :: b :: t => a ++ sep ++ joinSep sep (b :: t)

/-- Join a list of strings with a separator string. -/
def joinSepS (sep : String) (l : List String) : String :=
  ⟨joinSep sep.data (l.map String.data)⟩

theorem joinSep_cons_ne (sep x : List Char) {L : List (List Char)} (h : L ≠ []) :
    joinSep sep (x :: L) = x ++ sep ++ joinSep sep L := by
  cases L with
  | nil => exact absurd rfl h
  | cons b t => rfl

/-- Fusing a separator written inside one element with the separator the join
inserts between two elements. -/
theorem joinSep_merge (sep a b : List Char) (l1 l2 : List (List Char)) :
    joinSep sep (l1 ++ (a ++ sep ++ b) :: l2) = joinSep sep (l1 ++ a :: b :: l2) := by
  induction l1 with
  | nil =>
    cases l2 with
    | nil => simp [joinSep, List.append_assoc]
    | cons c t => simp [joinSep, List.append_assoc]
  | cons x l1 ih =>
    have h1 : l1 ++ (a ++ sep ++ b) :: l2 ≠ [] := by simp
    have h2 : l1 ++ a :: b :: l2 ≠ [] := by simp
    rw [List.cons_append, List.cons_append, joinSep_cons_ne sep x h1,
      joinSep_cons_ne sep x h2, ih]

/-- Invariant of the greedy packing loop: joining the produced chunks with
`". "` equals joining the pending chunks, accumulator and remaining sentences
with `". "`, provided every sentence is non-empty. -/
theorem packLoop_join (maxL : Nat) (ss : List (List Char)) (hss : ∀ s ∈ ss, s ≠ []) :
    ∀ (cur : List Char) (chunks : List (List Char)),
    joinSep sepChars (packLoop maxL ss cur chunks) =
      joinSep sepChars (chunks ++ (if cur = [] then [] else [cur]) ++ ss) := by
  induction ss with
  | nil =>
    intro cur chunks
    by_cases hcur : cur = [] <;> simp [packLoop, hcur]
  | cons s rest ih =>
    intro cur chunks
    have hs : s ≠ [] := hss s (List.mem_cons_self s rest)
    have hrest : ∀ x ∈ rest, x ≠ [] := fun x hx => hss x (List.mem_cons_of_mem s hx)
    by_cases hfit : cur.length + s.length + 1 ≤ maxL
    · by_cases hcur : cur = []
      · rw [show packLoop maxL (s :: rest) cur chunks
              = packLoop maxL rest s chunks by simp [packLoop, hfit, hcur]]
        rw [ih hrest s chunks]
        simp [hs, hcur]
      · have hcur2 : cur ++ sepChars ++ s ≠ [] := by
          intro hc
          exact hcur (List.append_eq_nil.mp (List.append_eq_nil.mp hc).1).1
        rw [show packLoop maxL (s :: rest) cur chunks
              = packLoop maxL rest (cur ++ sepChars ++ s) chunks by
            simp [packLoop, hfit, hcur]]
        rw [ih hrest (cur ++ sepChars ++ s) chunks]
        rw [if_neg hcur2, if_neg hcur]
        rw [show chunks ++ [cur ++ sepChars ++ s] ++ rest
              = chunks ++ (cur ++ sepChars ++ s) :: rest by simp]
        rw [joinSep_merge sepChars cur s chunks rest]
        simp
    · by_cases hcur : cur = []
      · rw [show packLoop maxL (s :: rest) cur chunks
              = packLoop maxL rest s chunks by simp [packLoop, hfit, hcur]]
        rw [ih hrest s chunks]
        simp [hs, hcur]
      · rw [show packLoop maxL (s :: rest) cur chunks
              = packLoop maxL rest s (chunks ++ [cur]) by simp [packLoop, hfit, hcur]]
        rw [ih hrest s (chunks ++ [cur])]
        simp [hs, hcur]

/-- Concatenating the fixed-width slices restores the text. -/
theorem sliceChunksF_join (m : Nat) (hm : 1 ≤ m) :
    ∀ (fuel : Nat) (l : List Char), l.length ≤ fuel →
    (sliceChunksF fuel m l).flatten = l := by
  intro fuel
  induction fuel with
  | zero =>
    intro l hl
    have : l = [] := List.eq_nil_of_length_eq_zero (Nat.le_zero.mp hl)
    subst this
    rfl
  | succ fuel ih =>
    intro l hl
    cases l with
    | nil => rfl
    | cons c cs =>
      show (List.take m (c :: cs) :: sliceChunksF fuel m (List.drop m (c :: cs))).flatten
            = c :: cs
      rw [List.flatten_cons,
        ih (List.drop m (c :: cs))
          (by simp only [List.length_drop, List.length_cons] at hl ⊢; omega),
        List.take_append_drop]

theorem strJoin_foldl (l : List (List Char)) :
    ∀ s : String, List.foldl (· ++ ·) s (l.map String.mk) = ⟨s.data ++ l.flatten⟩ := by
  induction l with
  | nil => intro s; simp
  | cons a t ih =>
    intro s
    rw [List.map_cons, List.foldl_cons, ih (s ++ String.mk a)]
    simp [List.append_assoc]

/-- `String.join` over packed character lists is the character-level join. -/
theorem strJoin_map_mk (l : List (List Char)) :
    String.join (l.map String.mk) = ⟨l.flatten⟩ := by
  have h := strJoin_foldl l ""
  simpa [String.join] using h

/-- Every sentence produced by `split_sentences` is non-empty (the source
filters on `s.strip()` truthiness). -/
theorem split_sentences_ne_nil {s x : String} (hx : x ∈ split_sentences s) : x ≠ "" := by
  unfold split_sentences at hx
  obtain ⟨y, hy, hxy⟩ := List.mem_map.mp hx
  unfold splitSentencesChars at hy
  by_cases hnil : s.data = []
  · rw [if_pos hnil] at hy
    exact absurd hy (List.not_mem_nil y)
  · rw [if_neg hnil] at hy
    have hyne := (List.mem_filter.mp hy).2
    have hy0 : y ≠ [] := by
      intro hc
      subst hc
      simp at hyne
    intro hc
    apply hy0
    have h2 : String.mk y = "" := hxy.trans hc
    exact congrArg String.data h2

/-! ### Claims C2, C4, C5 — chunking -/

/-- C2 (counterexample): for text `"a! b"` and `maxLength = 1` the chunker
returns `["a", "b"]`; neither plain concatenation nor rejoining with `". "`
reproduces `normalize("a! b") = "a! b"` — the sentence split discarded the
`"! "` separator, so the claimed reconstruction property fails. -/
theorem c2_counterexample :
    preprocess_for_tts "a! b" 1 = ["a", "b"] ∧
    normalize_text "a! b" = "a! b" ∧
    String.join (preprocess_for_tts "a! b" 1) ≠ normalize_text "a! b" ∧
    joinSepS ". " (preprocess_for_tts "a! b" 1) ≠ normalize_text "a! b" := by
  refine ⟨by decide, by decide, by decide, by decide⟩

/-- C2 (amended): for `maxLength ≥ 1` and any text, (1) when the normalized
text fits within `maxLength` the single returned chunk is exactly the
normalized text; (2) in the fixed-width fallback path, concatenating the
chunks with no separator reproduces the normalized text exactly; (3) in the
sentence-packing path, the chunks joined with `". "` equal the sentences of
the normalized text joined with `". "` — the original terminal-punctuation
runs are discarded by the sentence split, so plain concatenation need not
reproduce the normalized text there. -/
theorem c2_amended (text : String) (n : Nat) (hn : 1 ≤ n) :
    ((normalize_text text).length ≤ n →
      preprocess_for_tts text n = [normalize_text text]) ∧
    (¬ (normalize_text text).length ≤ n →
      split_sentences (normalize_text text) = [] →
      String.join (preprocess_for_tts text n) = normalize_text text) ∧
    (¬ (normalize_text text).length ≤ n →
      split_sentences (normalize_text text) ≠ [] →
      joinSepS ". " (preprocess_for_tts text n) =
        joinSepS ". " (split_sentences (normalize_text text))) := by
  refine ⟨?_, ?_, ?_⟩
  · intro h
    unfold preprocess_for_tts
    rw [if_pos h]
  · intro h hs
    unfold preprocess_for_tts
    rw [if_neg h, if_pos hs, strJoin_map_mk]
    unfold sliceChunks
    rw [sliceChunksF_join n hn _ _ (Nat.le_refl _)]
  · intro h hs
    unfold preprocess_for_tts
    rw [if_neg h, if_neg hs]
    unfold joinSepS
    have hmap : ∀ (P : List (List Char)), (P.map String.mk).map String.data = P := by
      intro P
      rw [List.map_map]
      exact List.map_id P
    rw [hmap]
    have hsep : (". " : String).data = sepChars := by decide
    rw [hsep]
    have hne : ∀ s ∈ (split_sentences (normalize_text text)).map String.data, s ≠ [] := by
      intro s hsmem
      obtain ⟨x, hx, hxs⟩ := List.mem_map.mp hsmem
      have hxne := split_sentences_ne_nil hx
      intro hc
      apply hxne
      have hdata : x.data = [] := by rw [hxs]; exact hc
      cases x with
      | mk d =>
        have hd : d = [] := hdata
        subst hd
        rfl
    have hpack := packLoop_join n ((split_sentences (normalize_text text)).map String.data) hne [] []
    unfold packChunks
    rw [hpack]
    simp

/-- Witness for `c2_amended` at text `"ab. cd"` and `maxLength = 3`. -/
theorem c2_amended_witness :
    ((normalize_text "ab. cd").length ≤ 3 →
      preprocess_for_tts "ab. cd" 3 = [normalize_text "ab. cd"]) ∧
    (¬ (normalize_text "ab. cd").length ≤ 3 →
      split_sentences (normalize_text "ab. cd") = [] →
      String.join (preprocess_for_tts "ab. cd" 3) = normalize_text "ab. cd") ∧
    (¬ (normalize_text "ab. cd").length ≤ 3 →
      split_sentences (normalize_text "ab. cd") ≠ [] →
      joinSepS ". " (preprocess_for_tts "ab. cd" 3) =
        joinSepS ". " (split_sentences (normalize_text "ab. cd"))) :=
  c2_amended "ab. cd" 3 (by decide)

/-- C4 (evaluation at the failing input): for text `"abcd. efgh. ijkl"` and
`maxLength = 9` the three sentences each have length 4 < 9 and jointly exceed
9; the chunker returns 2 chunks, but the first chunk `"abcd. efgh"` has
length 10 > 9, because the packing guard
`len(current_chunk) + len(sentence) + 1 <= max_length` budgets one character
for the two-character `". "` joiner. -/
theorem c4_code_bug_eval :
    preprocess_for_tts "abcd. efgh. ijkl" 9 = ["abcd. efgh", "ijkl"] ∧
    split_sentences (normalize_text "abcd. efgh. ijkl") = ["abcd", "efgh", "ijkl"] ∧
    (∀ s ∈ split_sentences (normalize_text "abcd. efgh. ijkl"), s.length < 9) ∧
    2 ≤ (preprocess_for_tts "abcd. efgh. ijkl" 9).length ∧
    ¬ (∀ c ∈ preprocess_for_tts "abcd. efgh. ijkl" 9, c.length ≤ 9) := by
  refine ⟨by decide, by decide, by decide, by decide, by decide⟩

/-- C5 (counterexample): `chunk("", 1)` is `[""]` — one chunk holding the
empty string — not the empty sequence the claim states. -/
theorem c5_counterexample :
    preprocess_for_tts "" 1 = [""] ∧ [""] ≠ ([] : List String) := by
  refine ⟨by decide, by decide⟩

/-- C5 (amended): `normalize("") = ""` holds, and for every `maxLength` the
chunker on empty input returns the single-element sequence `[""]` (the
normalized empty text fits any limit, so the short-text path wraps it as one
chunk) rather than an empty sequence. -/
theorem c5_amended (n : Nat) :
    preprocess_for_tts "" n = [""] ∧ normalize_text "" = "" := by
  have hnorm : normalize_text "" = "" := by decide
  constructor
  · unfold preprocess_for_tts
    rw [hnorm]
    exact if_pos (Nat.zero_le n)
  · exact hnorm

/-! ### `AudioProcessor.select_best_voice_samples` (audio_processor.py lines
175-210) and `VoiceCloner._select_voice_samples` (voice_cloner.py lines
62-80)

A catalog entry is a path paired with the result of metadata probing:
`some d` when `get_audio_info` reports duration `d`, `none` when probing
raises (such files are skipped with a warning). -/

/-- The duration filter `min_duration <= duration <= max_duration` applied to
a probe result; a failed probe never qualifies. -/
def durationWithin (minD maxD : ℚ) : Option ℚ → Bool
  | some d => decide (minD ≤ d) && decide (d ≤ maxD)
  | none => false

/-- The selection loop of `select_best_voice_samples`: walk the catalog in
order; on a successful probe append the file when its duration is in bounds
and then stop as soon as `max_samples` have been collected; on a failed probe
skip the file (the stop check sits inside the `try` block, so it is not
reached on probe failure). -/
def selLoop (minD maxD : ℚ) (maxS : Nat) : List (String × Option ℚ) → List String → List String
  | [], sel => sel
  | (f, info) :: rest, sel =>
    match info with
    | none => selLoop minD maxD maxS rest sel
    | some d =>
      let sel2 := if durationWithin minD maxD (some d) then sel ++ [f] else sel
      if maxS ≤ sel2.length then sel2 else selLoop minD maxD maxS rest sel2

/-- `AudioProcessor.select_best_voice_samples`. -/
def select_best_voice_samples (minD maxD : ℚ) (maxS : Nat)
    (catalog : List (String × Option ℚ)) : List String :=
  selLoop minD maxD maxS catalog []

/-- `VoiceCloner._select_voice_samples`: run the duration-filtered selection
and fall back to the first `num_samples` files of the raw catalog when it
comes back empty. -/
def voiceClonerSelect (minD maxD : ℚ) (maxS : Nat)
    (catalog : List (String × Option ℚ)) : List String :=
  let sel := select_best_voice_samples minD maxD maxS catalog
  if sel = [] then (catalog.map Prod.fst).take maxS else sel

/-- `VoiceCloner._select_voice_samples` at its call-site parameters
(`min_duration=2.0`, `max_duration=15.0`, `num_samples=5`). -/
def selectVoiceSamples (catalog : List (String × Option ℚ)) : List String :=
  voiceClonerSelect 2 15 5 catalog

theorem selLoop_all_out (minD maxD : ℚ) (maxS : Nat) :
    ∀ (catalog : List (String × Option ℚ)),
    (∀ p ∈ catalog, durationWithin minD maxD p.2 = false) →
    selLoop minD maxD maxS catalog [] = [] := by
  intro catalog
  induction catalog with
  | nil => intro _; rfl
  | cons p rest ih =>
    intro h
    obtain ⟨f, info⟩ := p
    have hp := h (f, info) (List.mem_cons_self _ _)
    have hrest : ∀ q ∈ rest, durationWithin minD maxD q.2 = false :=
      fun q hq => h q (List.mem_cons_of_mem _ hq)
    cases info with
    | none => exact ih hrest
    | some d =>
      have hp2 : durationWithin minD maxD (some d) = false := hp
      simp only [selLoop, hp2, Bool.false_eq_true, if_false, List.length_nil]
      by_cases hb : maxS ≤ 0
      · rw [if_pos hb]
      · rw [if_neg hb]
        exact ih hrest

/-- C6: on a non-empty catalog in which no file's probed duration lies within
`[minDuration, maxDuration]`, the voice-sample selection of the orchestrator
returns the first `maxSamples` entries of the raw catalog unfiltered, and
(for a positive sample budget, as at the call site where it is 5) the result
is never empty. -/
theorem c6_fallback (catalog : List (String × Option ℚ)) (minD maxD : ℚ) (maxS : Nat)
    (hne : catalog ≠ [])
    (hzero : ∀ p ∈ catalog, durationWithin minD maxD p.2 = false) :
    voiceClonerSelect minD maxD maxS catalog = (catalog.map Prod.fst).take maxS ∧
    (0 < maxS → voiceClonerSelect minD maxD maxS catalog ≠ []) := by
  have hsel : select_best_voice_samples minD maxD maxS catalog = [] :=
    selLoop_all_out minD maxD maxS catalog hzero
  have hmain : voiceClonerSelect minD maxD maxS catalog = (catalog.map Prod.fst).take maxS := by
    unfold voiceClonerSelect
    rw [hsel]
    rfl
  refine ⟨hmain, fun hpos => ?_⟩
  rw [hmain]
  cases catalog with
  | nil => exact absurd rfl hne
  | cons p rest =>
    cases maxS with
    | zero => exact absurd hpos (Nat.lt_irrefl 0)
    | succ m => simp

/-- Witness for `c6_fallback`: a one-file catalog whose only duration (20 s)
is outside `[2, 15]`. -/
theorem c6_fallback_witness :
    voiceClonerSelect 2 15 5 [("a.wav", some 20)] =
      ([("a.wav", (some 20 : Option ℚ))].map Prod.fst).take 5 ∧
    (0 < 5 → voiceClonerSelect 2 15 5 [("a.wav", some 20)] ≠ []) :=
  c6_fallback [("a.wav", some 20)] 2 15 5 (by decide)
    (by
      intro p hp
      rw [List.mem_singleton.mp hp]
      decide)

/-! ### Audio stitching (voice_cloner.py lines 166-205)

Waveforms are single-channel sample lists over `ℚ` (exact arithmetic; the
length and normalization claims under study do not depend on float
rounding). -/

/-- Maximum absolute amplitude `np.abs(audio).max()`, with 0 for the empty
list (numpy raises there; the stitching paths under study never reach that
case with an empty waveform). -/
def maxAbs (l : List ℚ) : ℚ := l.foldr (fun x m => max |x| m) 0

/-- The peak-normalize-with-headroom idiom
`if max_val > 0: audio = audio / max_val * 0.95` that the source applies both
per segment (line 183-185) and to the final concatenation (lines 200-202). -/
def pyNormalize95 (a : List ℚ) : List ℚ :=
  if 0 < maxAbs a then a.map (fun x => x / maxAbs a * (19 / 20)) else a

/-- The inter-chunk silence buffer:
`int(22050 * 0.2) = 4410` zero samples (the float product rounds to exactly
4410.0). -/
def pauseVec : List ℚ := List.replicate 4410 0

/-- The stitching loop (lines 175-191): each non-empty segment is
peak-normalized to 0.95 and, when it is not the last segment, followed by the
pause buffer; empty segments are dropped together with their pause. -/
def buildSegs : List (List ℚ) → List (List ℚ)
  | [] => []
  | [a] => if a = [] then [] else [pyNormalize95 a]
  | a :: b :: t =>
    (if a = [] then [] else [pyNormalize95 a, pauseVec]) ++ buildSegs (b :: t)

/-- The stitched waveform before the pitch-shift post-effect: concatenate the
normalized segments and pauses (lines 193-197; concatenating a singleton is
the single segment, as in the `len == 1` short-circuit) and apply the final
peak normalization pass (lines 199-202). -/
def stitchPrePitch (segs : List (List ℚ)) : List ℚ :=
  pyNormalize95 (buildSegs segs).flatten

theorem maxAbs_nil : maxAbs [] = 0 := rfl

theorem maxAbs_cons (x : ℚ) (l : List ℚ) : maxAbs (x :: l) = max |x| (maxAbs l) := rfl

theorem maxAbs_nonneg (l : List ℚ) : 0 ≤ maxAbs l := by
  induction l with
  | nil => exact le_refl 0
  | cons x l ih => exact le_trans ih (le_max_right _ _)

theorem le_maxAbs_of_mem {x : ℚ} {l : List ℚ} (h : x ∈ l) : |x| ≤ maxAbs l := by
  induction l with
  | nil => exact absurd h (List.not_mem_nil x)
  | cons y l ih =>
    rw [maxAbs_cons]
    rcases List.mem_cons.mp h with h1 | h1
    · rw [h1]; exact le_max_left _ _
    · exact le_trans (ih h1) (le_max_right _ _)

theorem maxAbs_map_mul (l : List ℚ) (k : ℚ) (hk : 0 ≤ k) :
    maxAbs (l.map (fun x => x * k)) = maxAbs l * k := by
  induction l with
  | nil => simp [maxAbs]
  | cons x l ih =>
    rw [List.map_cons, maxAbs_cons, maxAbs_cons, ih, abs_mul, abs_of_nonneg hk,
      max_mul_of_nonneg _ _ hk]

theorem length_pyNormalize95 (a : List ℚ) : (pyNormalize95 a).length = a.length := by
  unfold pyNormalize95
  by_cases h : 0 < maxAbs a
  · rw [if_pos h, List.length_map]
  · rw [if_neg h]

theorem pyNormalize95_eq_map (a : List ℚ) (h : 0 < maxAbs a) :
    pyNormalize95 a = a.map (fun x => x * (19 / 20 / maxAbs a)) := by
  unfold pyNormalize95
  rw [if_pos h]
  apply List.map_congr_left
  intro x _
  rw [div_mul_eq_mul_div, mul_div_assoc]

theorem maxAbs_pyNormalize95 (a : List ℚ) (h : 0 < maxAbs a) :
    maxAbs (pyNormalize95 a) = 19 / 20 := by
  rw [pyNormalize95_eq_map a h,
    maxAbs_map_mul a _ (div_nonneg (by norm_num) (le_of_lt h))]
  field_simp
  ring

/-- C8: stitching two non-empty segments with `pause = 0.2 s` at 22050 Hz
produces, before the pitch-shift effect, the final-normalized concatenation
of the normalized first segment, exactly 4410 zero samples, and the
normalized second segment — the pause sits after the first segment only —
so its total length is `len(segA) + 4410 + len(segB)`. -/
theorem c8_stitch_length (A B : List ℚ) (hA : A ≠ []) (hB : B ≠ []) :
    stitchPrePitch [A, B] =
      pyNormalize95 (pyNormalize95 A ++ pauseVec ++ pyNormalize95 B) ∧
    (stitchPrePitch [A, B]).length = A.length + 4410 + B.length := by
  have hbuild : buildSegs [A, B] = [pyNormalize95 A, pauseVec, pyNormalize95 B] := by
    show (if A = [] then [] else [pyNormalize95 A, pauseVec]) ++ buildSegs [B] = _
    rw [if_neg hA]
    show _ ++ (if B = [] then [] else [pyNormalize95 B]) = _
    rw [if_neg hB]
    rfl
  have hflat : (buildSegs [A, B]).flatten
      = pyNormalize95 A ++ pauseVec ++ pyNormalize95 B := by
    rw [hbuild]
    simp [List.append_assoc]
  constructor
  · unfold stitchPrePitch
    rw [hflat]
  · unfold stitchPrePitch
    rw [length_pyNormalize95, hflat]
    rw [List.length_append, List.length_append, length_pyNormalize95,
      length_pyNormalize95,
      show pauseVec.length = 4410 from by rw [pauseVec]; exact List.length_replicate 4410 0]

/-- Witness for `c8_stitch_length` on the one-sample segments `[1]` and
`[1]`. -/
theorem c8_stitch_length_witness :
    (stitchPrePitch [[(1 : ℚ)], [(1 : ℚ)]]).length
      = [(1 : ℚ)].length + 4410 + [(1 : ℚ)].length :=
  (c8_stitch_length [(1 : ℚ)] [(1 : ℚ)] (by simp) (by simp)).2

/-- Every non-empty segment contributes its normalized form to the stitching
list. -/
theorem mem_buildSegs_of_mem {a : List ℚ} (hne : a ≠ []) :
    ∀ segs : List (List ℚ), a ∈ segs → pyNormalize95 a ∈ buildSegs segs := by
  intro segs
  induction segs with
  | nil => intro ha; exact absurd ha (List.not_mem_nil a)
  | cons s rest ih =>
    intro ha
    cases rest with
    | nil =>
      have haeq : a = s := by
        rcases List.mem_cons.mp ha with h | h
        · exact h
        · exact absurd h (List.not_mem_nil a)
      subst haeq
      show pyNormalize95 a ∈ (if a = [] then [] else [pyNormalize95 a])
      rw [if_neg hne]
      exact List.mem_singleton.mpr rfl
    | cons b t =>
      rcases List.mem_cons.mp ha with h | h
      · subst h
        show pyNormalize95 a ∈
          (if a = [] then [] else [pyNormalize95 a, pauseVec]) ++ buildSegs (b :: t)
        rw [if_neg hne]
        exact List.mem_append_left _ (List.mem_cons_self _ _)
      · exact List.mem_append_right _ (ih h)

/-- Peak normalization keeps a nonzero sample nonzero. -/
theorem pyNormalize95_nonzero {a : List ℚ} {x : ℚ} (hx : x ∈ a) (h0 : x ≠ 0) :
    ∃ y ∈ pyNormalize95 a, y ≠ 0 := by
  have hpos : 0 < maxAbs a := lt_of_lt_of_le (abs_pos.mpr h0) (le_maxAbs_of_mem hx)
  refine ⟨x / maxAbs a * (19 / 20), ?_, ?_⟩
  · unfold pyNormalize95
    rw [if_pos hpos]
    exact List.mem_map.mpr ⟨x, hx, rfl⟩
  · exact mul_ne_zero (div_ne_zero h0 (ne_of_gt hpos)) (by norm_num)

/-- C9: whenever some segment contains a nonzero sample, the waveform handed
to the pitch-shift step — the stitched signal after the final normalization
pass — has maximum absolute amplitude exactly 0.95 = 19/20, and every sample
is bounded by 0.95 in absolute value (exact arithmetic reading). -/
theorem c9_final_normalization (segs : List (List ℚ))
    (h : ∃ a ∈ segs, ∃ x ∈ a, x ≠ 0) :
    maxAbs (stitchPrePitch segs) = 19 / 20 ∧
    ∀ y ∈ stitchPrePitch segs, |y| ≤ 19 / 20 := by
  obtain ⟨a, ha, x, hx, hx0⟩ := h
  have hane : a ≠ [] := by
    intro hc
    subst hc
    exact absurd hx (List.not_mem_nil x)
  obtain ⟨y, hy, hy0⟩ := pyNormalize95_nonzero hx hx0
  have hpiece := mem_buildSegs_of_mem hane segs ha
  have hyflat : y ∈ (buildSegs segs).flatten :=
    List.mem_flatten.mpr ⟨pyNormalize95 a, hpiece, hy⟩
  have hpos : 0 < maxAbs (buildSegs segs).flatten :=
    lt_of_lt_of_le (abs_pos.mpr hy0) (le_maxAbs_of_mem hyflat)
  have hmax : maxAbs (stitchPrePitch segs) = 19 / 20 := by
    unfold stitchPrePitch
    exact maxAbs_pyNormalize95 _ hpos
  exact ⟨hmax, fun z hz => hmax ▸ le_maxAbs_of_mem hz⟩

/-- Witness for `c9_final_normalization` on the single segment `[1]`. -/
theorem c9_final_normalization_witness :
    maxAbs (stitchPrePitch [[(1 : ℚ)]]) = 19 / 20 :=
  (c9_final_normalization [[(1 : ℚ)]]
    ⟨[(1 : ℚ)], by simp, 1, by simp, by norm_num⟩).1

/-! ### The orchestrator `VoiceCloner.clone_voice` (voice_cloner.py lines
92-236) with `TTSEngine.synthesize` (tts_engine.py lines 72-136)

The filesystem is the list of existing paths. The neural model behind
`tts.tts_to_file` is an external collaborator: `CloneEnv.engine i chunk` is
the outcome of its `i`-th per-chunk invocation (a waveform, or the exception
it raises; on an exception no chunk file is written). The pitch-shift
post-effect `deepen_voice` lives in `src/audio_deepener.py`, which is not
part of the sources under study; no claim below constrains it, so it too is a
`CloneEnv` parameter. `ec` counts `TTSEngine.synthesize` invocations, `mc`
counts invocations that reached the neural model (the engine rejects empty
chunk text with `ValueError("Text cannot be empty")` before the model
call). -/

/-- Python exceptions distinguished by the code under study. -/
inductive PyExn where
  | valueError (msg : String)
  | typeError (msg : String)
  | fileNotFound (path : String)
deriving DecidableEq

/-- External collaborators of one `clone_voice` run. -/
structure CloneEnv where
  engine : Nat → String → Except PyExn (List ℚ)
  catalog : List (String × Option ℚ)
  deepen : List ℚ → List ℚ

/-- Orchestrator state: the `_voice_samples` cache and the filesystem. -/
structure CloneSt where
  voiceSamples : Option (List String)
  fs : List String
deriving DecidableEq

/-- Create a file (an existing path stays a single entry). -/
def addFile (t : String) (fs : List String) : List String :=
  if t ∈ fs then fs else fs ++ [t]

/-- The `finally` cleanup: unlink every recorded chunk file that exists. -/
def removeFiles (cleanup fs : List String) : List String :=
  fs.filter (fun f => !(cleanup.contains f))

/-- `Path.stem`: final path component without its last extension. -/
def stemChars (l : List Char) : List Char :=
  let comp := (l.reverse.takeWhile (fun c => c != '/')).reverse
  let rev := comp.reverse
  if rev.contains '.' then ((rev.dropWhile (fun c => c != '.')).drop 1).reverse
  else comp

/-- `Path.stem` on strings. -/
def stemOf (p : String) : String := ⟨stemChars p.data⟩

/-- The per-chunk temporary file
`Path(tempfile.gettempdir()) / ("chunk_" + str(i) + "_" + stem + ".wav")`
with the temp directory modelled as `/tmp`. -/
def tempName (i : Nat) (p : String) : String :=
  "/tmp/chunk_" ++ Nat.repr i ++ "_" ++ stemOf p ++ ".wav"

/-- Result of the per-chunk synthesis loop. -/
structure LoopOut where
  res : Except PyExn (List (List ℚ))
  fs : List String
  cleanup : List String
  ec : Nat
  mc : Nat

/-- The per-chunk loop of `clone_voice` (lines 134-156): for chunk `i`,
when an output path was requested record the temp chunk file for cleanup
before synthesizing; then call `TTSEngine.synthesize`, which raises on empty
chunk text before reaching the model, invokes the model otherwise, and on
success leaves the chunk file on disk; the first exception aborts the
loop. -/
def synthLoop (env : CloneEnv) (out : Option String) :
    List String → Nat → List String → List String → List (List ℚ) → Nat → Nat → LoopOut
  | [], _, fs, cleanup, segs, ec, mc => ⟨.ok segs, fs, cleanup, ec, mc⟩
  | chunk :: rest, i, fs, cleanup, segs, ec, mc =>
    let chunkOut : Option String := out.map (fun p => tempName i p)
    let cleanup2 := cleanup ++ chunkOut.toList
    if chunk = "" then
      ⟨.error (.valueError "Text cannot be empty"), fs, cleanup2, ec + 1, mc⟩
    else
      match env.engine i chunk with
      | .error e => ⟨.error e, fs, cleanup2, ec + 1, mc + 1⟩
      | .ok audio =>
        synthLoop env out rest (i + 1)
          (match chunkOut with | some t => addFile t fs | none => fs)
          cleanup2 (segs ++ [audio]) (ec + 1) (mc + 1)

/-- `VoiceCloner.get_voice_samples` at the contents level (lines 82-90):
populate the `_voice_samples` cache on first use, then serve from the cache
(the returned `.copy()` has the same contents; object identity is treated in
the heap model further below). -/
def getVoiceSamplesSt (catalog : List (String × Option ℚ)) (st : CloneSt) :
    List String × CloneSt :=
  match st.voiceSamples with
  | some v => (v, st)
  | none =>
    let sel := selectVoiceSamples catalog
    (sel, ⟨some sel, st.fs⟩)

/-- Result of one `clone_voice` run. -/
structure CloneRes where
  result : Except PyExn (List ℚ)
  st : CloneSt
  ec : Nat
  mc : Nat

/-- `clone_voice` after the speaker sample is fixed (lines 130-236): check
the sample exists, run the per-chunk loop, always clean up the recorded
chunk files, then on success stitch, apply the pitch-shift post-effect and
optionally write the output file. -/
def cloneWithSpeaker (env : CloneEnv) (chunks : List String) (sp : String)
    (out : Option String) (st : CloneSt) : CloneRes :=
  if sp ∈ st.fs then
    let L := synthLoop env out chunks 0 st.fs [] [] 0 0
    let fsClean := removeFiles L.cleanup L.fs
    match L.res with
    | .error e => ⟨.error e, ⟨st.voiceSamples, fsClean⟩, L.ec, L.mc⟩
    | .ok segs =>
      let audio := env.deepen (stitchPrePitch segs)
      let fsOut := match out with | some p => addFile p fsClean | none => fsClean
      ⟨.ok audio, ⟨st.voiceSamples, fsOut⟩, L.ec, L.mc⟩
  else ⟨.error (.fileNotFound sp), st, 0, 0⟩

/-- `VoiceCloner.clone_voice` (lines 92-236): reject empty text, chunk with
`max_length=500`, resolve the speaker sample (the cached selection when none
is supplied, raising when none is available), then synthesize chunk by
chunk and stitch. -/
def clone_voice (env : CloneEnv) (text : String) (speakerSample : Option String)
    (out : Option String) (st : CloneSt) : CloneRes :=
  if text = "" then ⟨.error (.valueError "Text cannot be empty"), st, 0, 0⟩
  else
    let chunks := preprocess_for_tts text 500
    match speakerSample with
    | some sp => cloneWithSpeaker env chunks sp out st
    | none =>
      match getVoiceSamplesSt env.catalog st with
      | (vs, st1) =>
        match vs with
        | [] => ⟨.error (.valueError "No voice samples available"), st1, 0, 0⟩
        | sp :: _ => cloneWithSpeaker env chunks sp out st1

theorem removeFiles_nil (fs : List String) : removeFiles [] fs = fs := by
  unfold removeFiles
  induction fs with
  | nil => rfl
  | cons a fs ih => simp [List.filter, ih]

theorem mem_removeFiles {f : String} {cl fs : List String} :
    f ∈ removeFiles cl fs ↔ f ∈ fs ∧ f ∉ cl := by
  simp [removeFiles, List.mem_filter]

theorem mem_addFile {f t : String} {fs : List String} (h : f ∈ addFile t fs) :
    f ∈ fs ∨ f = t := by
  unfold addFile at h
  by_cases ht : t ∈ fs
  · rw [if_pos ht] at h
    exact Or.inl h
  · rw [if_neg ht] at h
    rcases List.mem_append.mp h with h1 | h1
    · exact Or.inl h1
    · exact Or.inr (List.mem_singleton.mp h1)

/-- C7 (amended): empty text is rejected by the orchestrator guard
`if not text` with the `ValueError("Text cannot be empty")`, before any
engine or model call and with the state untouched. Blank non-empty text
passes that guard: it normalizes to `""`, becomes the single chunk `""`, and
the run fails with the same `ValueError` — but raised by the engine's own
empty-text check after one engine call (here with the speaker sample
supplied, so the sample cache is not consulted; the counterexample below
shows the cache mutating when it is). -/
theorem c7_amended :
    (∀ (env : CloneEnv) (sp : Option String) (out : Option String) (st : CloneSt),
      clone_voice env "" sp out st
        = ⟨.error (.valueError "Text cannot be empty"), st, 0, 0⟩) ∧
    (∀ (env : CloneEnv) (st : CloneSt) (sp text : String),
      text ≠ "" → normalize_text text = "" → sp ∈ st.fs →
      clone_voice env text (some sp) none st
        = ⟨.error (.valueError "Text cannot be empty"), st, 1, 0⟩) := by
  constructor
  · intro env sp out st
    rfl
  · intro env st sp text htext hblank hsp
    have hchunks : preprocess_for_tts text 500 = [""] := by
      unfold preprocess_for_tts
      rw [hblank]
      exact if_pos (Nat.zero_le 500)
    unfold clone_voice
    rw [if_neg htext]
    show cloneWithSpeaker env (preprocess_for_tts text 500) sp none st = _
    rw [hchunks]
    unfold cloneWithSpeaker
    rw [if_pos hsp]
    show (⟨.error (.valueError "Text cannot be empty"),
      ⟨st.voiceSamples, removeFiles [] st.fs⟩, 1, 0⟩ : CloneRes) = _
    rw [removeFiles_nil]

/-- A one-file environment and a fresh-cache state used by the C7 run. -/
def envSmall : CloneEnv :=
  ⟨fun _ _ => .error (.valueError "x"), [("a.wav", some 3)], id⟩

/-- Initial state for the C7 run: empty sample cache, one file on disk. -/
def stSmall : CloneSt := ⟨none, ["a.wav"]⟩

/-- Witness for `c7_amended` on blank text `" "`. -/
theorem c7_amended_witness :
    clone_voice envSmall " " (some "a.wav") none stSmall
      = ⟨.error (.valueError "Text cannot be empty"), stSmall, 1, 0⟩ :=
  c7_amended.2 envSmall stSmall "a.wav" " " (by decide) (by decide) (by decide)

/-- C7 (counterexample): on the blank text `" "` with no explicit speaker
sample, the request is rejected with the empty-text `ValueError`, but only
after the voice-sample cache transitioned from `none` to
`some ["a.wav"]` and one engine call was made — contradicting "before any
backend call is made, and no state transition occurs". -/
theorem c7_counterexample :
    (clone_voice envSmall " " none none stSmall).result
        = .error (.valueError "Text cannot be empty") ∧
    stSmall.voiceSamples = none ∧
    (clone_voice envSmall " " none none stSmall).st.voiceSamples = some ["a.wav"] ∧
    (clone_voice envSmall " " none none stSmall).ec = 1 := by
  refine ⟨rfl, rfl, rfl, rfl⟩

/-- First-failure behaviour of the per-chunk loop with an output path: when
chunks `0..j-1` synthesize and the `j`-th backend call raises `e`, the loop
result is exactly `e`; every file the loop created is one of the per-chunk
temp names below the chunk count; the cleanup list only grows; and the temp
names of all chunks up to and including `j` are recorded for cleanup. -/
theorem synthLoop_firstFail (env : CloneEnv) (p : String) :
    ∀ (cs : List String) (i : Nat) (fs cleanup : List String)
      (segs : List (List ℚ)) (ec mc : Nat) (j : Nat) (e : PyExn),
    j < cs.length →
    (∀ c ∈ cs, c ≠ "") →
    (∀ k, k < j → ∃ a, env.engine (i + k) (cs.getD k "") = .ok a) →
    env.engine (i + j) (cs.getD j "") = .error e →
    (synthLoop env (some p) cs i fs cleanup segs ec mc).res = .error e ∧
    (∀ f, f ∈ (synthLoop env (some p) cs i fs cleanup segs ec mc).fs →
      f ∈ fs ∨ ∃ k, k < i + cs.length ∧ f = tempName k p) ∧
    (∀ f, f ∈ cleanup →
      f ∈ (synthLoop env (some p) cs i fs cleanup segs ec mc).cleanup) ∧
    (∀ k, k ≤ j →
      tempName (i + k) p ∈ (synthLoop env (some p) cs i fs cleanup segs ec mc).cleanup) := by
  intro cs
  induction cs with
  | nil =>
    intro i fs cleanup segs ec mc j e hj
    exact absurd hj (Nat.not_lt_zero j)
  | cons c rest ih =>
    intro i fs cleanup segs ec mc j e hj hne hok hfail
    have hc : c ≠ "" := hne c (List.mem_cons_self _ _)
    have hstep : synthLoop env (some p) (c :: rest) i fs cleanup segs ec mc
        = match env.engine i c with
          | .error e' => ⟨.error e', fs, cleanup ++ [tempName i p], ec + 1, mc + 1⟩
          | .ok audio => synthLoop env (some p) rest (i + 1) (addFile (tempName i p) fs)
              (cleanup ++ [tempName i p]) (segs ++ [audio]) (ec + 1) (mc + 1) := by
      simp only [synthLoop, Option.map_some', Option.toList_some]
      rw [if_neg hc]
    cases j with
    | zero =>
      have hfail0 : env.engine i c = .error e := by simpa using hfail
      rw [hstep, hfail0]
      refine ⟨rfl, ?_, ?_, ?_⟩
      · intro f hf
        exact Or.inl hf
      · intro f hf
        exact List.mem_append_left _ hf
      · intro k hk
        have hk0 : k = 0 := Nat.le_zero.mp hk
        subst hk0
        exact List.mem_append_right _ (List.mem_singleton.mpr (by rw [Nat.add_zero]))
    | succ j' =>
      obtain ⟨a, ha⟩ := hok 0 (Nat.succ_pos j')
      have ha0 : env.engine i c = .ok a := by simpa using ha
      rw [hstep, ha0]
      have hj' : j' < rest.length := Nat.lt_of_succ_lt_succ (by simpa using hj)
      have hne' : ∀ x ∈ rest, x ≠ "" := fun x hx => hne x (List.mem_cons_of_mem _ hx)
      have hok' : ∀ k, k < j' → ∃ b, env.engine ((i + 1) + k) (rest.getD k "") = .ok b := by
        intro k hk
        have := hok (k + 1) (Nat.succ_lt_succ hk)
        rw [show i + (k + 1) = (i + 1) + k by omega] at this
        simpa using this
      have hfail' : env.engine ((i + 1) + j') (rest.getD j' "") = .error e := by
        have := hfail
        rw [show i + (j' + 1) = (i + 1) + j' by omega] at this
        simpa using this
      obtain ⟨ihres, ihfs, ihmono, ihtemps⟩ :=
        ih (i + 1) (addFile (tempName i p) fs) (cleanup ++ [tempName i p])
          (segs ++ [a]) (ec + 1) (mc + 1) j' e hj' hne' hok' hfail'
      refine ⟨ihres, ?_, ?_, ?_⟩
      · intro f hf
        rcases ihfs f hf with h1 | ⟨k, hk, hkeq⟩
        · rcases mem_addFile h1 with h2 | h2
          · exact Or.inl h2
          · exact Or.inr ⟨i, by simp only [List.length_cons]; omega, h2⟩
        · exact Or.inr ⟨k, by simp only [List.length_cons]; omega, hkeq⟩
      · intro f hf
        exact ihmono f (List.mem_append_left _ hf)
      · intro k hk
        cases k with
        | zero =>
          rw [Nat.add_zero]
          exact ihmono _ (List.mem_append_right _ (List.mem_singleton.mpr rfl))
        | succ k' =>
          have hk' : k' ≤ j' := Nat.le_of_succ_le_succ hk
          have := ihtemps k' hk'
          rw [show (i + 1) + k' = i + (k' + 1) by omega] at this
          exact this

/-- C1 (amended): when the text splits into several chunks and the backend
call for chunk `j` is the first to raise, while the text is non-empty, all
chunks are non-empty and the requested output path and per-chunk temp names
are fresh, the whole request aborts: the propagated error is the backend's
error value unchanged (no chunk index is attached to it — see the
counterexample), no waveform is returned, the output file is not written,
and every per-chunk temporary file recorded so far has been removed. -/
theorem c1_amended (env : CloneEnv) (st : CloneSt) (text sp p : String) (e : PyExn) (j : Nat)
    (htext : text ≠ "")
    (hsp : sp ∈ st.fs)
    (hmulti : 2 ≤ (preprocess_for_tts text 500).length)
    (hne : ∀ c ∈ preprocess_for_tts text 500, c ≠ "")
    (hj : j < (preprocess_for_tts text 500).length)
    (hok : ∀ k, k < j → ∃ a, env.engine k ((preprocess_for_tts text 500).getD k "") = .ok a)
    (hfail : env.engine j ((preprocess_for_tts text 500).getD j "") = .error e)
    (hpfs : p ∉ st.fs)
    (hptemp : ∀ k, k < (preprocess_for_tts text 500).length → p ≠ tempName k p) :
    (clone_voice env text (some sp) (some p) st).result = .error e ∧
    p ∉ (clone_voice env text (some sp) (some p) st).st.fs ∧
    (∀ k, k ≤ j → tempName k p ∉ (clone_voice env text (some sp) (some p) st).st.fs) := by
  have hclone : clone_voice env text (some sp) (some p) st
      = cloneWithSpeaker env (preprocess_for_tts text 500) sp (some p) st := by
    unfold clone_voice
    rw [if_neg htext]
  obtain ⟨hres, hfs, hmono, htemps⟩ :=
    synthLoop_firstFail env p (preprocess_for_tts text 500) 0 st.fs [] [] 0 0 j e hj hne
      (by intro k hk; simpa using hok k hk) (by simpa using hfail)
  have hcw : cloneWithSpeaker env (preprocess_for_tts text 500) sp (some p) st
      = ⟨.error e,
        ⟨st.voiceSamples,
          removeFiles (synthLoop env (some p) (preprocess_for_tts text 500) 0 st.fs [] [] 0 0).cleanup
            (synthLoop env (some p) (preprocess_for_tts text 500) 0 st.fs [] [] 0 0).fs⟩,
        (synthLoop env (some p) (preprocess_for_tts text 500) 0 st.fs [] [] 0 0).ec,
        (synthLoop env (some p) (preprocess_for_tts text 500) 0 st.fs [] [] 0 0).mc⟩ := by
    simp only [cloneWithSpeaker]
    rw [if_pos hsp, hres]
  rw [hclone, hcw]
  refine ⟨rfl, ?_, ?_⟩
  · intro hp
    obtain ⟨hp1, _⟩ := mem_removeFiles.mp hp
    rcases hfs p hp1 with h1 | ⟨k, hk, hkeq⟩
    · exact hpfs h1
    · exact hptemp k (by simpa using hk) hkeq
  · intro k hk hmem
    obtain ⟨_, hp2⟩ := mem_removeFiles.mp hmem
    apply hp2
    have := htemps k hk
    rwa [Nat.zero_add] at this

/-- A 602-character text of two 300-character sentences; it normalizes to
itself and splits into exactly two chunks under `max_length = 500`. -/
def longText : String :=
  ⟨List.replicate 300 'a' ++ ('.' :: ' ' :: List.replicate 300 'b')⟩

/-- Backend that raises `ValueError("boom")` on its first call. -/
def envFail1 : CloneEnv := ⟨fun _ _ => .error (.valueError "boom"), [], id⟩

/-- Backend that synthesizes chunk 0 and raises `ValueError("boom")` on
chunk 1. -/
def envFail2 : CloneEnv :=
  ⟨fun i _ => if i = 0 then .ok [1] else .error (.valueError "boom"), [], id⟩

/-- Initial state for the C1 runs: empty cache, speaker sample on disk. -/
def stC1 : CloneSt := ⟨none, ["s.wav"]⟩

/-- C1 (counterexample): `longText` splits into 2 chunks; a run whose first
backend call fails (1 model call) and a run whose second backend call fails
(2 model calls) both propagate the identical error value
`ValueError("boom")` — the propagated error does not carry the failing chunk
index, since runs failing at different chunks are indistinguishable by their
error. -/
theorem c1_counterexample :
    (preprocess_for_tts longText 500).length = 2 ∧
    (clone_voice envFail1 longText (some "s.wav") none stC1).result
        = .error (.valueError "boom") ∧
    (clone_voice envFail2 longText (some "s.wav") none stC1).result
        = .error (.valueError "boom") ∧
    (clone_voice envFail1 longText (some "s.wav") none stC1).mc = 1 ∧
    (clone_voice envFail2 longText (some "s.wav") none stC1).mc = 2 := by
  refine ⟨by decide, rfl, rfl, rfl, rfl⟩

/-- Witness for `c1_amended`: the run of `envFail2` on `longText` with an
output path, failing at chunk index 1 of 2. -/
theorem c1_amended_witness :
    (clone_voice envFail2 longText (some "s.wav") (some "/out/x.wav") stC1).result
        = .error (.valueError "boom") ∧
    "/out/x.wav" ∉
      (clone_voice envFail2 longText (some "s.wav") (some "/out/x.wav") stC1).st.fs ∧
    (∀ k, k ≤ 1 → tempName k "/out/x.wav" ∉
      (clone_voice envFail2 longText (some "s.wav") (some "/out/x.wav") stC1).st.fs) :=
  c1_amended envFail2 stC1 longText "s.wav" "/out/x.wav" (.valueError "boom") 1
    (by decide) (by decide) (by decide) (by decide) (by decide)
    (by
      intro k hk
      have hk0 : k = 0 := by omega
      subst hk0
      exact ⟨[1], rfl⟩)
    rfl (by decide) (by decide)

/-! ### `VoiceCloner.initialize` (voice_cloner.py lines 41-60) against the
signature of `AudioProcessor.discover_audio_files` (audio_processor.py lines
36-49) -/

/-- Keyword parameters accepted by `AudioProcessor.discover_audio_files`:
its signature `def discover_audio_files(self)` declares none beyond
`self`. -/
def discoverAudioFilesKwparams : List String := []

/-- Python keyword-argument binding: passing a keyword the callee does not
declare raises `TypeError` before the callee body runs. -/
def bindKwargs (fname : String) (accepted given : List String) : Except PyExn Unit :=
  match given.find? (fun k => !(accepted.contains k)) with
  | some k =>
    .error (.typeError (fname ++ "() got an unexpected keyword argument " ++ k))
  | none => .ok ()

/-- A call of `AudioProcessor.discover_audio_files` with the given keyword
arguments: bind keywords first, then glob `*.wav` over the directory listing
and sort. -/
def discover_audio_files (dirListing : List String) (kwargs : List String) :
    Except PyExn (List String) :=
  match bindKwargs "discover_audio_files" discoverAudioFilesKwparams kwargs with
  | .error e => .error e
  | .ok _ =>
    .ok ((dirListing.filter (fun f => f.endsWith ".wav")).mergeSort (fun a b => a ≤ b))

/-- Initialization state of the orchestrator. -/
structure InitSt where
  audio_files : List String
  voiceSamples : Option (List String)

/-- `VoiceCloner.initialize`: its first statement calls
`discover_audio_files(require_transcript=require_transcript)`; the rest of
the body (the empty-catalog check with its transcript-dependent message, and
the sample selection) follows. -/
def voiceClonerInit (require_transcript : Bool) (dirListing : List String)
    (probe : String → Option ℚ) (st : InitSt) : Except PyExn InitSt :=
  match discover_audio_files dirListing ["require_transcript"] with
  | .error e => .error e
  | .ok files =>
    if files = [] then
      .error (.valueError
        (if require_transcript then "No audio files with transcripts found"
         else "No audio files found"))
    else
      .ok ⟨files, some (selectVoiceSamples (files.map (fun f => (f, probe f))))⟩

/-- C3: every call of the orchestrator initialization raises `TypeError`
from the keyword binding of `discover_audio_files` — which accepts no
`require_transcript` keyword — before any catalog is built; no argument
combination can make initialization succeed through this entry point. -/
theorem c3_init_typeerror (require_transcript : Bool) (dirListing : List String)
    (probe : String → Option ℚ) (st : InitSt) :
    voiceClonerInit require_transcript dirListing probe st
      = .error (.typeError
          "discover_audio_files() got an unexpected keyword argument require_transcript") :=
  rfl

/-! ### `VoiceCloner.get_voice_samples` object identity (voice_cloner.py
lines 82-90)

A minimal heap of list objects makes the `.copy()` visible: object
identifiers index a store, the `_voice_samples` attribute holds an
identifier, and mutation writes through an identifier. -/

/-- Heap of Python list objects holding path lists. -/
structure Heap where
  store : List (List String)

/-- Allocate a fresh list object; its identifier is the store position. -/
def Heap.alloc (h : Heap) (v : List String) : Heap × Nat :=
  (⟨h.store ++ [v]⟩, h.store.length)

/-- Read a list object (out-of-range reads never occur on the paths under
study). -/
def Heap.get (h : Heap) (i : Nat) : List String :=
  h.store.getD i []

/-- In-place mutation of a list object. -/
def Heap.set (h : Heap) (i : Nat) (v : List String) : Heap :=
  ⟨h.store.set i v⟩

theorem listGetD_append_lt (l l' : List (List String)) (i : Nat) (d : List String)
    (hi : i < l.length) : (l ++ l').getD i d = l.getD i d := by
  induction l generalizing i with
  | nil => exact absurd hi (Nat.not_lt_zero i)
  | cons a t ih =>
    cases i with
    | zero => rfl
    | succ i' => exact ih i' (Nat.lt_of_succ_lt_succ hi)

theorem listGetD_append_len (l l' : List (List String)) (d : List String) :
    (l ++ l').getD l.length d = l'.getD 0 d := by
  induction l with
  | nil => rfl
  | cons a t ih => exact ih

theorem listGetD_set_ne (l : List (List String)) {i j : Nat} (hij : i ≠ j)
    (v d : List String) : (l.set i v).getD j d = l.getD j d := by
  induction l generalizing i j with
  | nil => rfl
  | cons a t ih =>
    cases i with
    | zero =>
      cases j with
      | zero => exact absurd rfl hij
      | succ j' => rfl
    | succ i' =>
      cases j with
      | zero => rfl
      | succ j' =>
        exact ih (i := i') (j := j') (fun hc => hij (by rw [hc]))

theorem Heap.get_alloc (h : Heap) (v : List String) :
    (h.alloc v).1.get (h.alloc v).2 = v :=
  listGetD_append_len h.store [v] []

theorem Heap.get_alloc_lt (h : Heap) (v : List String) {i : Nat}
    (hi : i < h.store.length) : (h.alloc v).1.get i = h.get i :=
  listGetD_append_lt h.store [v] i [] hi

theorem Heap.get_set_ne (h : Heap) {i j : Nat} (hij : i ≠ j) (v : List String) :
    (h.set i v).get j = h.get j :=
  listGetD_set_ne h.store hij v []

/-- Heap-level orchestrator state for `get_voice_samples`: the heap, the
identifier cached in `_voice_samples`, and how many times
`_select_voice_samples` has run. -/
structure VCHeapSt where
  heap : Heap
  cacheRef : Option Nat
  selectCount : Nat

/-- `VoiceCloner.get_voice_samples` at the heap level: when the cache is
unset, run `_select_voice_samples` (counted) and store the selection as a
new list object; in both cases return `self._voice_samples.copy()` — a fresh
list object with the cached contents. -/
def get_voice_samples (catalog : List (String × Option ℚ)) (s : VCHeapSt) :
    Nat × VCHeapSt :=
  match s.cacheRef with
  | some r =>
    let p := s.heap.alloc (s.heap.get r)
    (p.2, ⟨p.1, some r, s.selectCount⟩)
  | none =>
    let sel := selectVoiceSamples catalog
    let p1 := s.heap.alloc sel
    let p2 := p1.1.alloc (p1.1.get p1.2)
    (p2.2, ⟨p2.1, some p1.2, s.selectCount + 1⟩)


/-- C10: `get_voice_samples` returns a fresh copy of the cached
voice-sample list. For any state whose cache reference (if set) is a valid
heap object: the call leaves a cache reference distinct from the returned
object, the returned object holds the cached contents, mutating the returned
object leaves the cached list unchanged, and a subsequent call returns the
same selection contents without running `_select_voice_samples` again. -/
theorem c10_copy_frame (catalog : List (String × Option ℚ)) (s : VCHeapSt)
    (hvalid : ∀ c, s.cacheRef = some c → c < s.heap.store.length) :
    ∃ c, (get_voice_samples catalog s).2.cacheRef = some c ∧
      (get_voice_samples catalog s).1 ≠ c ∧
      (get_voice_samples catalog s).2.heap.get (get_voice_samples catalog s).1
        = (get_voice_samples catalog s).2.heap.get c ∧
      (∀ v, ((get_voice_samples catalog s).2.heap.set (get_voice_samples catalog s).1 v).get c
        = (get_voice_samples catalog s).2.heap.get c) ∧
      (get_voice_samples catalog (get_voice_samples catalog s).2).2.selectCount
        = (get_voice_samples catalog s).2.selectCount ∧
      (get_voice_samples catalog (get_voice_samples catalog s).2).2.heap.get
          (get_voice_samples catalog (get_voice_samples catalog s).2).1
        = (get_voice_samples catalog s).2.heap.get (get_voice_samples catalog s).1 := by
  obtain ⟨⟨store⟩, cref, cnt⟩ := s
  cases cref with
  | some r =>
    have hr : r < store.length := hvalid r rfl
    refine ⟨r, rfl, ?_, ?_, ?_, ?_, ?_⟩
    · show store.length ≠ r
      omega
    · show (store ++ [store.getD r []]).getD store.length []
        = (store ++ [store.getD r []]).getD r []
      rw [listGetD_append_len, listGetD_append_lt _ _ _ _ hr]
      rfl
    · intro v
      show ((store ++ [store.getD r []]).set store.length v).getD r []
        = (store ++ [store.getD r []]).getD r []
      exact listGetD_set_ne _ (by omega) v []
    · rfl
    · show ((store ++ [store.getD r []])
          ++ [(store ++ [store.getD r []]).getD r []]).getD (store ++ [store.getD r []]).length []
        = (store ++ [store.getD r []]).getD store.length []
      rw [listGetD_append_len, listGetD_append_len]
      show (store ++ [store.getD r []]).getD r [] = store.getD r []
      rw [listGetD_append_lt _ _ _ _ hr]
  | none =>
    have hlen : store.length < (store ++ [selectVoiceSamples catalog]).length := by
      simp only [List.length_append, List.length_cons, List.length_nil]
      omega
    refine ⟨store.length, rfl, ?_, ?_, ?_, ?_, ?_⟩
    · show (store ++ [selectVoiceSamples catalog]).length ≠ store.length
      simp only [List.length_append, List.length_cons, List.length_nil]
      omega
    · show ((store ++ [selectVoiceSamples catalog])
          ++ [(store ++ [selectVoiceSamples catalog]).getD store.length []]).getD
            (store ++ [selectVoiceSamples catalog]).length []
        = ((store ++ [selectVoiceSamples catalog])
          ++ [(store ++ [selectVoiceSamples catalog]).getD store.length []]).getD
            store.length []
      rw [listGetD_append_len, listGetD_append_lt _ _ _ _ hlen]
      rfl
    · intro v
      show (((store ++ [selectVoiceSamples catalog])
          ++ [(store ++ [selectVoiceSamples catalog]).getD store.length []]).set
            (store ++ [selectVoiceSamples catalog]).length v).getD store.length []
        = ((store ++ [selectVoiceSamples catalog])
          ++ [(store ++ [selectVoiceSamples catalog]).getD store.length []]).getD
            store.length []
      exact listGetD_set_ne _ (by omega) v []
    · rfl
    · show (((store ++ [selectVoiceSamples catalog])
            ++ [(store ++ [selectVoiceSamples catalog]).getD store.length []])
          ++ [((store ++ [selectVoiceSamples catalog])
            ++ [(store ++ [selectVoiceSamples catalog]).getD store.length []]).getD
              store.length []]).getD
            ((store ++ [selectVoiceSamples catalog])
            ++ [(store ++ [selectVoiceSamples catalog]).getD store.length []]).length []
        = ((store ++ [selectVoiceSamples catalog])
          ++ [(store ++ [selectVoiceSamples catalog]).getD store.length []]).getD
            (store ++ [selectVoiceSamples catalog]).length []
      calc (((store ++ [selectVoiceSamples catalog])
              ++ [(store ++ [selectVoiceSamples catalog]).getD store.length []])
            ++ [((store ++ [selectVoiceSamples catalog])
              ++ [(store ++ [selectVoiceSamples catalog]).getD store.length []]).getD
                store.length []]).getD
              ((store ++ [selectVoiceSamples catalog])
              ++ [(store ++ [selectVoiceSamples catalog]).getD store.length []]).length []
          = ((store ++ [selectVoiceSamples catalog])
              ++ [(store ++ [selectVoiceSamples catalog]).getD store.length []]).getD
                store.length [] :=
            listGetD_append_len
              ((store ++ [selectVoiceSamples catalog])
                ++ [(store ++ [selectVoiceSamples catalog]).getD store.length []])
              [((store ++ [selectVoiceSamples catalog])
                ++ [(store ++ [selectVoiceSamples catalog]).getD store.length []]).getD
                  store.length []] []
        _ = (store ++ [selectVoiceSamples catalog]).getD store.length [] :=
            listGetD_append_lt (store ++ [selectVoiceSamples catalog])
              [(store ++ [selectVoiceSamples catalog]).getD store.length []]
              store.length [] hlen
        _ = ((store ++ [selectVoiceSamples catalog])
              ++ [(store ++ [selectVoiceSamples catalog]).getD store.length []]).getD
                (store ++ [selectVoiceSamples catalog]).length [] :=
            (listGetD_append_len (store ++ [selectVoiceSamples catalog])
              [(store ++ [selectVoiceSamples catalog]).getD store.length []] []).symm

/-- Witness for `c10_copy_frame` on an empty heap with an unset cache. -/
theorem c10_copy_frame_witness :
    ∃ c, (get_voice_samples [("a.wav", some 3)] ⟨⟨[]⟩, none, 0⟩).2.cacheRef = some c ∧
      (get_voice_samples [("a.wav", some 3)] ⟨⟨[]⟩, none, 0⟩).1 ≠ c ∧
      (get_voice_samples [("a.wav", some 3)] ⟨⟨[]⟩, none, 0⟩).2.heap.get
          (get_voice_samples [("a.wav", some 3)] ⟨⟨[]⟩, none, 0⟩).1
        = (get_voice_samples [("a.wav", some 3)] ⟨⟨[]⟩, none, 0⟩).2.heap.get c ∧
      (∀ v, ((get_voice_samples [("a.wav", some 3)] ⟨⟨[]⟩, none, 0⟩).2.heap.set
            (get_voice_samples [("a.wav", some 3)] ⟨⟨[]⟩, none, 0⟩).1 v).get c
        = (get_voice_samples [("a.wav", some 3)] ⟨⟨[]⟩, none, 0⟩).2.heap.get c) ∧
      (get_voice_samples [("a.wav", some 3)]
          (get_voice_samples [("a.wav", some 3)] ⟨⟨[]⟩, none, 0⟩).2).2.selectCount
        = (get_voice_samples [("a.wav", some 3)] ⟨⟨[]⟩, none, 0⟩).2.selectCount ∧
      (get_voice_samples [("a.wav", some 3)]
          (get_voice_samples [("a.wav", some 3)] ⟨⟨[]⟩, none, 0⟩).2).2.heap.get
          (get_voice_samples [("a.wav", some 3)]
            (get_voice_samples [("a.wav", some 3)] ⟨⟨[]⟩, none, 0⟩).2).1
        = (get_voice_samples [("a.wav", some 3)] ⟨⟨[]⟩, none, 0⟩).2.heap.get
            (get_voice_samples [("a.wav", some 3)] ⟨⟨[]⟩, none, 0⟩).1 :=
  c10_copy_frame [("a.wav", some 3)] ⟨⟨[]⟩, none, 0⟩
    (by intro c hc; simp at hc)
